import Mathlib

/-!
# fusepa4.c : a pass-through FUSE filesystem

A shallow embedding of the handlers of `src/pa4/fusepa4.c`.

* C strings are lists of characters (the bytes before the terminating NUL).
* A character array `char buf[cap]` holds a string `s` only when
  `s.length + 1 ≤ cap`; a library call that would write past the end of the
  array has no defined result and is modelled by `none`.
* Host calls follow the POSIX convention: a call either succeeds with a value,
  or returns `-1` and sets `errno` to a positive code.
-/

namespace FusePa4

/-! ## Session data and path translation -/

/-- The per-mount data of `struct xmp_user_data`. -/
structure xmp_user_data where
  key : List Char
  root_directory : List Char
deriving DecidableEq, Repr

/-- Model of `strcpy(dest, src)` into an array of `cap` bytes: the string held by
`dest` afterwards, `none` when `src` and its terminator do not fit. -/
def strcpy (cap : Nat) (src : List Char) : Option (List Char) :=
  if src.length + 1 ≤ cap then some src else none

/-- Model of `strncat(dest, src, n)` for an array of `cap` bytes: at most `n`
characters of `src` are appended to the string in `dest`, then a terminator;
`none` when that writes past the end of the array. -/
def strncat (cap : Nat) (dest src : List Char) (n : Nat) : Option (List Char) :=
  if (dest ++ src.take n).length + 1 ≤ cap then some (dest ++ src.take n) else none

/-- Model of `getpath(file_path, path)` (fusepa4.c:61-65): `file_path` is an array of
`PATH_MAX` bytes, filled by `strcpy` of the root directory and a `strncat` of
the virtual path bounded by `PATH_MAX`. -/
def getpath (PATH_MAX : Nat) (data : xmp_user_data) (path : List Char) :
    Option (List Char) :=
  match strcpy PATH_MAX data.root_directory with
  | none => none
  | some file_path => strncat PATH_MAX file_path path PATH_MAX

/-- The value of `PATH_MAX` in the Linux `limits.h`. -/
def LINUX_PATH_MAX : Nat := 4096

/-! ## Host results, C integers and the structures the handlers exchange -/

/-- A value of `errno` after a failed host call: a positive error code. -/
structure Errno where
  code : Nat
  pos : 0 < code
deriving DecidableEq

def ENOENT : Errno := ⟨2, by decide⟩
def EBADF : Errno := ⟨9, by decide⟩
def EACCES : Errno := ⟨13, by decide⟩
def EEXIST : Errno := ⟨17, by decide⟩
def ENOTDIR : Errno := ⟨20, by decide⟩
def EISDIR : Errno := ⟨21, by decide⟩
def EINVAL : Errno := ⟨22, by decide⟩
def EMFILE : Errno := ⟨24, by decide⟩

/-- Outcome of a host call: success with a value, or failure (the C call returns
`-1`, or `NULL` for `opendir`, and sets `errno` to `e`). -/
inductive SysRet (α : Type) where
  | ok (val : α) : SysRet α
  | err (e : Errno) : SysRet α
deriving DecidableEq

/-- The C return value of a host call that reports a count. -/
def SysRet.ret : SysRet Nat → Int
  | .ok n => (n : Int)
  | .err _ => -1

/-- The value of `errno` after a host call, `old` being its value before; `errno` is
`0` or an error code. -/
def SysRet.errno {α : Type} (old : Nat) : SysRet α → Nat
  | .ok _ => old
  | .err e => e.code

/-- Conversion of an integer to the 32-bit `int` of the platform (two's complement). -/
def toInt32 (n : Int) : Int := (2 ^ 31 + n) % 2 ^ 32 - 2 ^ 31

abbrev Byte := Fin 256

structure timespec where
  tv_sec : Int
  tv_nsec : Int
deriving DecidableEq, Repr

structure timeval where
  tv_sec : Int
  tv_usec : Int
deriving DecidableEq, Repr

/-- The fields of `struct stat`. -/
structure stat where
  st_dev : Nat
  st_ino : Nat
  st_nlink : Nat
  st_mode : Nat
  st_uid : Nat
  st_gid : Nat
  st_rdev : Nat
  st_size : Int
  st_blksize : Int
  st_blocks : Int
  st_atim : timespec
  st_mtim : timespec
  st_ctim : timespec
deriving DecidableEq, Repr

/-- The fields of `struct statvfs`. -/
structure statvfs where
  f_bsize : Nat
  f_frsize : Nat
  f_blocks : Nat
  f_bfree : Nat
  f_bavail : Nat
  f_files : Nat
  f_ffree : Nat
  f_favail : Nat
  f_fsid : Nat
  f_flag : Nat
  f_namemax : Nat
deriving DecidableEq, Repr

/-- The fields of `struct dirent`; `d_type` is an `unsigned char`. -/
structure dirent where
  d_ino : Nat
  d_off : Int
  d_reclen : Nat
  d_type : Nat
  d_name : List Char
deriving DecidableEq, Repr

/-- The fields of `struct fuse_file_info` (FUSE 2.8); `fh` is a `uint64_t`. -/
structure fuse_file_info where
  flags : Nat
  fh_old : Nat
  writepage : Nat
  direct_io : Nat
  keep_cache : Nat
  flush : Nat
  nonseekable : Nat
  fh : Nat
  lock_owner : Nat
deriving DecidableEq, Repr

/-- The directory stream behind a `DIR *`: its descriptor and the entries that
`readdir` has still to yield. -/
structure DIR where
  fd : Nat
  pending : List dirent
deriving DecidableEq, Repr

/-! ## The host interface -/

/-- The path-based host calls used by the path-only handlers, over a host state `σ`. -/
structure PathHost (σ : Type) where
  lstat : σ → List Char → SysRet stat × σ
  access : σ → List Char → Int → SysRet Unit × σ
  mkdir : σ → List Char → Nat → SysRet Unit × σ
  rmdir : σ → List Char → SysRet Unit × σ
  unlink : σ → List Char → SysRet Unit × σ
  chmod : σ → List Char → Nat → SysRet Unit × σ
  lchown : σ → List Char → Nat → Nat → SysRet Unit × σ
  truncate : σ → List Char → Int → SysRet Unit × σ
  utimes : σ → List Char → timeval × timeval → SysRet Unit × σ
  statvfs : σ → List Char → SysRet statvfs × σ
  lsetxattr : σ → List Char → List Char → List Byte → Nat → Int → SysRet Unit × σ
  lremovexattr : σ → List Char → List Char → SysRet Unit × σ

/-- The descriptor-based host calls. `open2` is `open(path, flags)`; `pread` returns
the count and the caller's buffer after the call. -/
structure FileHost (σ : Type) where
  open2 : σ → List Char → Nat → SysRet Nat × σ
  creat : σ → List Char → Nat → SysRet Nat × σ
  close : σ → Int → SysRet Unit × σ
  pread : σ → Int → List Byte → Nat → Int → SysRet Nat × List Byte × σ
  pwrite : σ → Int → List Byte → Nat → Int → SysRet Nat × σ
  fstat : σ → Int → SysRet stat × σ

/-- The directory-stream host calls; `readdir` itself steps through `DIR.pending`. -/
structure DirHost (σ : Type) where
  opendir : σ → List Char → SysRet DIR × σ
  closedir : σ → DIR → SysRet Unit × σ

/-! ## Path-only handlers -/

/-- The conversion `xmp_utimens` applies to each timestamp (fusepa4.c:301-304):
the seconds are copied, the nanoseconds are divided by 1000 with C division. -/
def timespec_to_timeval (ts : timespec) : timeval :=
  { tv_sec := ts.tv_sec, tv_usec := Int.tdiv ts.tv_nsec 1000 }

/-- Model of `xmp_utimens` (fusepa4.c:294-311). -/
def xmp_utimens {σ : Type} (h : PathHost σ) (PATH_MAX : Nat) (data : xmp_user_data)
    (path : List Char) (ts : timespec × timespec) (s : σ) : Option (Int × σ) :=
  match getpath PATH_MAX data path with
  | none => none
  | some file_path =>
    let tv : timeval × timeval := (timespec_to_timeval ts.1, timespec_to_timeval ts.2)
    match h.utimes s file_path tv with
    | (.err e, s1) => some (-(e.code : Int), s1)
    | (.ok _, s1) => some (0, s1)

/-- Model of `xmp_open` (fusepa4.c:317-350). -/
def xmp_open {σ : Type} (h : FileHost σ) (PATH_MAX : Nat) (data : xmp_user_data)
    (path : List Char) (fi : fuse_file_info) (s : σ) : Option (Int × fuse_file_info × σ) :=
  match getpath PATH_MAX data path with
  | none => none
  | some file_path =>
    match h.open2 s file_path fi.flags with
    | (.err e, s1) => some (-(e.code : Int), fi, s1)
    | (.ok file_handle, s1) => some (0, { fi with fh := file_handle }, s1)

/-- Model of `xmp_read` (fusepa4.c:353-378): `pread` on `fi->fh`, its `ssize_t`
result stored in an `int`. Returns the result and the buffer afterwards. -/
def xmp_read {σ : Type} (h : FileHost σ) (_data : xmp_user_data) (_path : List Char)
    (buf : List Byte) (size : Nat) (offset : Int) (fi : fuse_file_info) (errno : Nat)
    (s : σ) : Int × List Byte × σ :=
  match h.pread s (toInt32 fi.fh) buf size offset with
  | (r, buf1, s1) =>
    let res : Int := toInt32 r.ret
    if res = -1 then (-(r.errno errno : Int), buf1, s1) else (res, buf1, s1)

/-- Model of `xmp_write` (fusepa4.c:381-405): `pwrite` on `fi->fh`, its `ssize_t`
result stored in an `int`. -/
def xmp_write {σ : Type} (h : FileHost σ) (_data : xmp_user_data) (_path : List Char)
    (buf : List Byte) (size : Nat) (offset : Int) (fi : fuse_file_info) (errno : Nat)
    (s : σ) : Int × σ :=
  match h.pwrite s (toInt32 fi.fh) buf size offset with
  | (r, s1) =>
    let res : Int := toInt32 r.ret
    if res = -1 then (-(r.errno errno : Int), s1) else (res, s1)

/-- Model of `xmp_create` (fusepa4.c:421-435): `creat`, then `close` of the
descriptor; `fi` is not touched. -/
def xmp_create {σ : Type} (h : FileHost σ) (PATH_MAX : Nat) (data : xmp_user_data)
    (path : List Char) (mode : Nat) (fi : fuse_file_info) (s : σ) :
    Option (Int × fuse_file_info × σ) :=
  match getpath PATH_MAX data path with
  | none => none
  | some file_path =>
    match h.creat s file_path mode with
    | (.err e, s1) => some (-(e.code : Int), fi, s1)
    | (.ok res, s1) => some (0, fi, (h.close s1 (res : Int)).2)

/-- Model of `xmp_release` (fusepa4.c:439-449). -/
def xmp_release {σ : Type} (h : FileHost σ) (_data : xmp_user_data) (_path : List Char)
    (fi : fuse_file_info) (s : σ) : Int × σ :=
  match h.close s (toInt32 fi.fh) with
  | (.err e, s1) => (-(e.code : Int), s1)
  | (.ok _, s1) => (0, s1)

/-- The result of `memset(&st, 0, sizeof(st))`. -/
def stat_zero : stat :=
  { st_dev := 0, st_ino := 0, st_nlink := 0, st_mode := 0, st_uid := 0, st_gid := 0,
    st_rdev := 0, st_size := 0, st_blksize := 0, st_blocks := 0,
    st_atim := ⟨0, 0⟩, st_mtim := ⟨0, 0⟩, st_ctim := ⟨0, 0⟩ }

/-- The attribute record built for one entry (fusepa4.c:124-127). -/
def readdir_stat (de : dirent) : stat :=
  let st := stat_zero
  let st := { st with st_ino := de.d_ino }
  { st with st_mode := de.d_type <<< 12 }

/-- The `while ((de = readdir(dp)) != NULL)` loop of `xmp_readdir` (fusepa4.c:123-130)
over the entries the stream has still to yield; `filler` is the framework
callback, returning its result and the listing buffer afterwards. -/
def xmp_readdir_loop {β : Type} (filler : β → List Char → stat → Int → Int × β) :
    β → List dirent → β
  | buf, [] => buf
  | buf, de :: rest =>
    match filler buf de.d_name (readdir_stat de) 0 with
    | (r, buf1) => if r ≠ 0 then buf1 else xmp_readdir_loop filler buf1 rest

/-- Model of `xmp_readdir` (fusepa4.c:107-134). -/
def xmp_readdir {σ β : Type} (h : DirHost σ) (PATH_MAX : Nat) (data : xmp_user_data)
    (path : List Char) (buf : β) (filler : β → List Char → stat → Int → Int × β)
    (_offset : Int) (_fi : fuse_file_info) (s : σ) : Option (Int × β × σ) :=
  match getpath PATH_MAX data path with
  | none => none
  | some file_path =>
    match h.opendir s file_path with
    | (.err e, s1) => some (-(e.code : Int), buf, s1)
    | (.ok dp, s1) =>
      let buf1 := xmp_readdir_loop filler buf dp.pending
      some (0, buf1, (h.closedir s1 dp).2)

/-! ## Observing the calls a handler makes -/

/-- One host call with its arguments. -/
inductive HostCall where
  | open2 (path : List Char) (flags : Nat)
  | creat (path : List Char) (mode : Nat)
  | close (fd : Int)
  | pread (fd : Int) (buf : List Byte) (size : Nat) (offset : Int)
  | pwrite (fd : Int) (buf : List Byte) (size : Nat) (offset : Int)
  | fstat (fd : Int)
  | opendir (path : List Char)
  | closedir (fd : Nat)
deriving DecidableEq

/-- The host `h` with a log of the descriptor-based calls made on it. -/
def FileHost.traced {σ : Type} (h : FileHost σ) : FileHost (σ × List HostCall) where
  open2 s path flags :=
    ((h.open2 s.1 path flags).1, (h.open2 s.1 path flags).2, s.2 ++ [.open2 path flags])
  creat s path mode :=
    ((h.creat s.1 path mode).1, (h.creat s.1 path mode).2, s.2 ++ [.creat path mode])
  close s fd := ((h.close s.1 fd).1, (h.close s.1 fd).2, s.2 ++ [.close fd])
  pread s fd buf size offset :=
    ((h.pread s.1 fd buf size offset).1, (h.pread s.1 fd buf size offset).2.1,
      (h.pread s.1 fd buf size offset).2.2, s.2 ++ [.pread fd buf size offset])
  pwrite s fd buf size offset :=
    ((h.pwrite s.1 fd buf size offset).1, (h.pwrite s.1 fd buf size offset).2,
      s.2 ++ [.pwrite fd buf size offset])
  fstat s fd := ((h.fstat s.1 fd).1, (h.fstat s.1 fd).2, s.2 ++ [.fstat fd])

/-- The host `h` with a log of the directory-stream calls made on it. -/
def DirHost.traced {σ : Type} (h : DirHost σ) : DirHost (σ × List HostCall) where
  opendir s path := ((h.opendir s.1 path).1, (h.opendir s.1 path).2, s.2 ++ [.opendir path])
  closedir s dp := ((h.closedir s.1 dp).1, (h.closedir s.1 dp).2, s.2 ++ [.closedir dp.fd])

/-- One invocation of the entry callback: its arguments and what it returned. -/
structure FillerCall where
  name : List Char
  st : stat
  off : Int
  ret : Int
deriving DecidableEq

/-- The callback `filler` with a log of its invocations. -/
def logged {β : Type} (filler : β → List Char → stat → Int → Int × β) :
    β × List FillerCall → List Char → stat → Int → Int × (β × List FillerCall) :=
  fun b name st off =>
    ((filler b.1 name st off).1, (filler b.1 name st off).2,
      b.2 ++ [{ name := name, st := st, off := off, ret := (filler b.1 name st off).1 }])

/-! ## A model of the host file store

Regular files are byte strings and directories are entry lists, both keyed by
backing path; the descriptor table is a list indexed by descriptor. `open`,
`creat` and `opendir` hand out the lowest descriptor that is not open, up to
`OPEN_MAX` descriptors. The open flags follow Linux: the access mode is
`flags % 4` (mode 3 gives a descriptor that can neither be read nor written),
and `O_CREAT`, `O_EXCL`, `O_TRUNC`, `O_APPEND`, `O_DIRECT`, `O_DIRECTORY` and
`O_PATH` have their effect on a regular file; one `pread` or `pwrite`
transfers at most `MAX_RW_COUNT` bytes. File permissions and the parent
directory of a path are not modelled. -/

/-- The open file description behind a descriptor. -/
structure OpenFile where
  path : List Char
  flags : Nat
deriving DecidableEq, Repr

structure HostState where
  files : List Char → Option (List Byte)
  dirs : List Char → Option (List dirent)
  fds : List (Option OpenFile)

/-- The limit on open descriptors. -/
def OPEN_MAX : Nat := 1024

/-- The open file description of descriptor `fd`, `none` when `fd` is not open. -/
def fdGet : List (Option OpenFile) → Nat → Option OpenFile
  | [], _ => none
  | x :: _, 0 => x
  | _ :: t, n + 1 => fdGet t n

/-- The lowest descriptor that is not open. -/
def lowestFree : List (Option OpenFile) → Nat
  | [] => 0
  | none :: _ => 0
  | some _ :: t => lowestFree t + 1

/-- The table after `f` is installed at the lowest free descriptor. -/
def install (f : OpenFile) : List (Option OpenFile) → List (Option OpenFile)
  | [] => [some f]
  | none :: t => some f :: t
  | some g :: t => some g :: install f t

/-- The table after descriptor `fd` is closed. -/
def clear : List (Option OpenFile) → Nat → List (Option OpenFile)
  | [], _ => []
  | _ :: t, 0 => none :: t
  | x :: t, n + 1 => x :: clear t n

/-- The content of a file after `data` is written at offset `off`; a gap between the
old end of file and `off` reads as zero bytes. -/
def writeAt (content : List Byte) (off : Nat) (data : List Byte) : List Byte :=
  content.take off ++ List.replicate (off - content.length) 0 ++ data
    ++ content.drop (off + data.length)

def O_CREAT : Nat := 64
def O_EXCL : Nat := 128
def O_TRUNC : Nat := 512
def O_APPEND : Nat := 1024
def O_DIRECT : Nat := 16384
def O_DIRECTORY : Nat := 65536
def O_PATH : Nat := 2097152

/-- The most bytes one `read` or `write` call transfers on Linux (`0x7ffff000`). -/
def MAX_RW_COUNT : Nat := 2147479552

/-- Whether the flag `bit` (a power of two) is set in `flags`. -/
def hasFlag (flags bit : Nat) : Bool := (flags / bit) % 2 == 1

/-- A descriptor opened with `flags` can be read: access mode `O_RDONLY` or `O_RDWR`,
and not `O_PATH`. -/
def readable (flags : Nat) : Bool :=
  (flags % 4 == 0 || flags % 4 == 2) && !hasFlag flags O_PATH

/-- A descriptor opened with `flags` can be written: access mode `O_WRONLY` or
`O_RDWR`, and not `O_PATH`. -/
def writable (flags : Nat) : Bool :=
  (flags % 4 == 1 || flags % 4 == 2) && !hasFlag flags O_PATH

/-- A transfer at `offset` of `size` bytes is refused on an `O_DIRECT` descriptor
unless both are multiples of the 512-byte block. -/
def misaligned (flags : Nat) (offset : Int) (size : Nat) : Bool :=
  hasFlag flags O_DIRECT && (offset.toNat % 512 != 0 || size % 512 != 0)

/-- The last step of a successful `open`: the lowest free descriptor is bound to the
path and flags, and the files become `files`; `EMFILE` when the table is full. -/
def openAt (s : HostState) (path : List Char) (flags : Nat)
    (files : List Char → Option (List Byte)) : SysRet Nat × HostState :=
  if OPEN_MAX ≤ lowestFree s.fds then (.err EMFILE, s)
  else (.ok (lowestFree s.fds), { s with files := files, fds := install ⟨path, flags⟩ s.fds })

/-- Host `open(path, flags)`. -/
def host_open2 (s : HostState) (path : List Char) (flags : Nat) : SysRet Nat × HostState :=
  match s.files path with
  | some _ =>
    if hasFlag flags O_DIRECTORY then (.err ENOTDIR, s)
    else if hasFlag flags O_PATH then openAt s path flags s.files
    else if hasFlag flags O_CREAT && hasFlag flags O_EXCL then (.err EEXIST, s)
    else
      openAt s path flags
        (if hasFlag flags O_TRUNC then (fun p => if p = path then some [] else s.files p)
          else s.files)
  | none =>
    match s.dirs path with
    | some _ =>
      if hasFlag flags O_PATH then openAt s path flags s.files
      else if flags % 4 != 0 || hasFlag flags O_CREAT then (.err EISDIR, s)
      else openAt s path flags s.files
    | none =>
      if hasFlag flags O_CREAT && !hasFlag flags O_PATH && !hasFlag flags O_DIRECTORY then
        openAt s path flags (fun p => if p = path then some [] else s.files p)
      else (.err ENOENT, s)

/-- Host `creat(path, mode)`, that is `open(path, O_CREAT|O_WRONLY|O_TRUNC, mode)`. -/
def host_creat (s : HostState) (path : List Char) (_mode : Nat) : SysRet Nat × HostState :=
  match s.dirs path with
  | some _ => (.err EISDIR, s)
  | none =>
    if OPEN_MAX ≤ lowestFree s.fds then (.err EMFILE, s)
    else
      (.ok (lowestFree s.fds),
        { s with
          files := fun p => if p = path then some [] else s.files p,
          fds := install ⟨path, 577⟩ s.fds })

/-- Host `close(fd)`. -/
def host_close (s : HostState) (fd : Int) : SysRet Unit × HostState :=
  if fd < 0 then (.err EBADF, s)
  else
    match fdGet s.fds fd.toNat with
    | none => (.err EBADF, s)
    | some _ => (.ok (), { s with fds := clear s.fds fd.toNat })

/-- What `pread` does on a descriptor opened with `flags` whose file holds `content`
(`none` for a directory): the outcome and the buffer afterwards. The bytes
read replace the start of `buf`. -/
def pread_file (flags : Nat) (content : Option (List Byte)) (buf : List Byte) (size : Nat)
    (offset : Int) : SysRet Nat × List Byte :=
  if readable flags = false then (.err EBADF, buf)
  else
    match content with
    | none => (.err EISDIR, buf)
    | some c =>
      if offset < 0 then (.err EINVAL, buf)
      else if misaligned flags offset size then (.err EINVAL, buf)
      else
        let got := (c.drop offset.toNat).take (min size MAX_RW_COUNT)
        (.ok got.length, got ++ buf.drop got.length)

/-- What `pwrite` does on a descriptor opened with `flags` whose file holds `content`:
the outcome and the new content, `none` when nothing is written. The first
`size` bytes of `buf` are written at `offset`, or at the end of the file when
the descriptor was opened with `O_APPEND`. -/
def pwrite_file (flags : Nat) (content : Option (List Byte)) (buf : List Byte) (size : Nat)
    (offset : Int) : SysRet Nat × Option (List Byte) :=
  if writable flags = false then (.err EBADF, none)
  else
    match content with
    | none => (.err EBADF, none)
    | some c =>
      if offset < 0 then (.err EINVAL, none)
      else if misaligned flags offset size then (.err EINVAL, none)
      else
        let data := buf.take (min size MAX_RW_COUNT)
        let pos := if hasFlag flags O_APPEND then c.length else offset.toNat
        (.ok data.length, some (writeAt c pos data))

/-- Host `pread(fd, buf, size, offset)`. -/
def host_pread (s : HostState) (fd : Int) (buf : List Byte) (size : Nat) (offset : Int) :
    SysRet Nat × List Byte × HostState :=
  if fd < 0 then (.err EBADF, buf, s)
  else
    match fdGet s.fds fd.toNat with
    | none => (.err EBADF, buf, s)
    | some f =>
      ((pread_file f.flags (s.files f.path) buf size offset).1,
        (pread_file f.flags (s.files f.path) buf size offset).2, s)

/-- Host `pwrite(fd, buf, size, offset)`. -/
def host_pwrite (s : HostState) (fd : Int) (buf : List Byte) (size : Nat) (offset : Int) :
    SysRet Nat × HostState :=
  if fd < 0 then (.err EBADF, s)
  else
    match fdGet s.fds fd.toNat with
    | none => (.err EBADF, s)
    | some f =>
      match pwrite_file f.flags (s.files f.path) buf size offset with
      | (r, none) => (r, s)
      | (r, some c) => (r, { s with files := fun p => if p = f.path then some c else s.files p })

/-- Host `fstat(fd)`: the type bits and the size of the open file. -/
def host_fstat (s : HostState) (fd : Int) : SysRet stat × HostState :=
  if fd < 0 then (.err EBADF, s)
  else
    match fdGet s.fds fd.toNat with
    | none => (.err EBADF, s)
    | some f =>
      match s.files f.path with
      | some content =>
        (.ok { stat_zero with st_mode := 32768, st_nlink := 1, st_size := content.length }, s)
      | none => (.ok { stat_zero with st_mode := 16384, st_nlink := 2 }, s)

/-- Host `opendir(path)`: the stream holds the entries of the directory. -/
def host_opendir (s : HostState) (path : List Char) : SysRet DIR × HostState :=
  match s.dirs path with
  | none =>
    match s.files path with
    | some _ => (.err ENOTDIR, s)
    | none => (.err ENOENT, s)
  | some entries =>
    if OPEN_MAX ≤ lowestFree s.fds then (.err EMFILE, s)
    else
      (.ok ⟨lowestFree s.fds, entries⟩, { s with fds := install ⟨path, 65536⟩ s.fds })

/-- Host `closedir(dp)`: closes the descriptor of the stream. -/
def host_closedir (s : HostState) (dp : DIR) : SysRet Unit × HostState :=
  host_close s (dp.fd : Int)

/-- The descriptor-based calls of the model. -/
@[reducible]
def hostFiles : FileHost HostState where
  open2 := host_open2
  creat := host_creat
  close := host_close
  pread := host_pread
  pwrite := host_pwrite
  fstat := host_fstat

/-- The directory-stream calls of the model. -/
@[reducible]
def hostDirs : DirHost HostState where
  opendir := host_opendir
  closedir := host_closedir

/-- A host whose state is the list of backing paths that exist: the path-based calls
succeed on an existing path and fail with `ENOENT` otherwise (`mkdir` fails
with `EEXIST` on an existing path). -/
def nameHost : PathHost (List (List Char)) where
  lstat s p := if p ∈ s then (.ok { stat_zero with st_nlink := 1 }, s) else (.err ENOENT, s)
  access s p _ := if p ∈ s then (.ok (), s) else (.err ENOENT, s)
  mkdir s p _ := if p ∈ s then (.err EEXIST, s) else (.ok (), p :: s)
  rmdir s p := if p ∈ s then (.ok (), s.erase p) else (.err ENOENT, s)
  unlink s p := if p ∈ s then (.ok (), s.erase p) else (.err ENOENT, s)
  chmod s p _ := if p ∈ s then (.ok (), s) else (.err ENOENT, s)
  lchown s p _ _ := if p ∈ s then (.ok (), s) else (.err ENOENT, s)
  truncate s p _ := if p ∈ s then (.ok (), s) else (.err ENOENT, s)
  utimes s p _ := if p ∈ s then (.ok (), s) else (.err ENOENT, s)
  statvfs s p :=
    if p ∈ s then (.ok ⟨4096, 4096, 0, 0, 0, 0, 0, 0, 0, 0, 255⟩, s) else (.err ENOENT, s)
  lsetxattr s p _ _ _ _ := if p ∈ s then (.ok (), s) else (.err ENOENT, s)
  lremovexattr s p _ := if p ∈ s then (.ok (), s) else (.err ENOENT, s)

/-- The open file description that the C `int` descriptor `fd` names in state `s`. -/
def HostState.descriptor (s : HostState) (fd : Int) : Option OpenFile :=
  if fd < 0 then none else fdGet s.fds fd.toNat

/-! ## Sample inputs -/

/-- Session data with the backing root `/srv`. -/
def demoData : xmp_user_data := ⟨"k".toList, "/srv".toList⟩

/-- The entries of a directory holding the files `a`, `b` and `c`. -/
def demoEntries : List dirent :=
  [⟨20, 1, 24, 4, ".".toList⟩, ⟨2, 2, 24, 4, "..".toList⟩, ⟨21, 3, 24, 8, "a".toList⟩,
    ⟨22, 4, 24, 8, "b".toList⟩, ⟨23, 5, 24, 8, "c".toList⟩]

/-- A host state with the directory `/srv/d`, the file `/srv/old` and three open
descriptors. -/
def demoHost : HostState where
  files := fun p => if p = "/srv/old".toList then some [1, 2, 3] else none
  dirs := fun p => if p = "/srv/d".toList then some demoEntries else none
  fds := [some ⟨"/dev/tty".toList, 0⟩, some ⟨"/dev/tty".toList, 1⟩, some ⟨"/dev/tty".toList, 1⟩]

/-- An entry callback that never reports a full buffer: it appends the name. -/
def collectAll : List (List Char) → List Char → stat → Int → Int × List (List Char) :=
  fun acc name _ _ => (0, acc ++ [name])

/-- A `fuse_file_info` with the given flags and handle, the other fields zero. -/
def demoFi (flags fh : Nat) : fuse_file_info := ⟨flags, 0, 0, 0, 0, 0, 0, fh, 0⟩

/-- The sample host after `open("/srv/old", O_RDONLY)`: descriptor 3. -/
def demoHost1 : HostState := (host_open2 demoHost "/srv/old".toList 0).2

/-- The sample host after a second `open("/srv/old", O_RDWR)`: descriptor 4. -/
def demoHost2 : HostState := (host_open2 demoHost1 "/srv/old".toList 2).2

/-- The sample host after `creat("/srv/new", 0644)` and `close` of its descriptor. -/
def tripHost1 : HostState := (host_close (host_creat demoHost "/srv/new".toList 420).2 3).2

/-- Then after `open("/srv/new", O_WRONLY)`: descriptor 3. -/
def tripHost2 : HostState := (host_open2 tripHost1 "/srv/new".toList 1).2

/-- Then after `pwrite(3, [7, 8, 9], 3, 2)`. -/
def tripHost3 : HostState := (host_pwrite tripHost2 3 [7, 8, 9] 3 2).2

/-- Then after `close(3)`. -/
def tripHost4 : HostState := (host_close tripHost3 3).2

/-- Then after `open("/srv/new", O_RDONLY)`: descriptor 3 again. -/
def tripHost5 : HostState := (host_open2 tripHost4 "/srv/new".toList 0).2

/-- The sample host after `creat("/srv/new")`, `close`, then
`open("/srv/new", O_WRONLY|O_APPEND)`: descriptor 3. -/
def appendHost2 : HostState := (host_open2 tripHost1 "/srv/new".toList 1025).2

/-- Then after `pwrite(3, [7, 8, 9], 3, 2)`. -/
def appendHost3 : HostState := (host_pwrite appendHost2 3 [7, 8, 9] 3 2).2

/-- Then after `close(3)`. -/
def appendHost4 : HostState := (host_close appendHost3 3).2

/-- Then after `open("/srv/new", O_RDONLY)`: descriptor 3 again. -/
def appendHost5 : HostState := (host_open2 appendHost4 "/srv/new".toList 0).2

/-! ## The return convention -/

theorem getpath_eq_some_iff (PATH_MAX : Nat) (data : xmp_user_data) (path fp : List Char) :
    getpath PATH_MAX data path = some fp ↔
      data.root_directory.length + path.length < PATH_MAX ∧ fp = data.root_directory ++ path := by
  unfold getpath strcpy strncat
  by_cases h1 : data.root_directory.length + 1 ≤ PATH_MAX
  · simp only [h1, if_true]
    by_cases h2 : path.length ≤ PATH_MAX
    · rw [List.take_of_length_le h2]
      by_cases h3 : (data.root_directory ++ path).length + 1 ≤ PATH_MAX
      · simp only [h3, if_true, Option.some.injEq]
        rw [List.length_append] at h3
        constructor
        · intro h; exact ⟨by omega, h.symm⟩
        · intro h; exact h.2.symm
      · simp only [h3, if_false]
        rw [List.length_append] at h3
        constructor
        · intro h; cases h
        · intro h; omega
    · have h3 : ¬ ((data.root_directory ++ path.take PATH_MAX).length + 1 ≤ PATH_MAX) := by
        rw [List.length_append, List.length_take]
        omega
      simp only [h3, if_false]
      constructor
      · intro h; cases h
      · intro h; omega
  · simp only [h1, if_false]
    constructor
    · intro h; cases h
    · intro h; omega

/-- C1 (amended): whenever the root directory and the virtual path together are
shorter than `PATH_MAX`, `getpath` leaves exactly `root_directory ++ path` in
`file_path`. -/
theorem getpath_concat (PATH_MAX : Nat) (data : xmp_user_data) (path : List Char)
    (hfit : data.root_directory.length + path.length < PATH_MAX) :
    getpath PATH_MAX data path = some (data.root_directory ++ path) :=
  (getpath_eq_some_iff PATH_MAX data path _).2 ⟨hfit, rfl⟩

theorem getpath_concat_witness :
    ("/srv".toList.length + "/a.txt".toList.length < 4096) ∧
    getpath 4096 ⟨"k".toList, "/srv".toList⟩ "/a.txt".toList
      = some ("/srv".toList ++ "/a.txt".toList) :=
  ⟨by decide, getpath_concat 4096 ⟨"k".toList, "/srv".toList⟩ "/a.txt".toList (by decide)⟩

/-- C1 (counterexample): with `PATH_MAX = 4096` and a virtual path of 4097 characters,
`strncat` appends only the first 4096 characters of the path, and the result
does not fit `file_path`: `getpath` does not produce `root_directory ++ path`. -/
theorem getpath_long_path_not_concat :
    getpath LINUX_PATH_MAX ⟨"k".toList, "/srv".toList⟩ (List.replicate 4097 'a')
        ≠ some ("/srv".toList ++ List.replicate 4097 'a') ∧
      "/srv".toList ++ (List.replicate 4097 'a').take LINUX_PATH_MAX
        ≠ "/srv".toList ++ List.replicate 4097 'a' := by
  constructor
  · intro h
    have h1 := ((getpath_eq_some_iff _ _ _ _).1 h).1
    rw [List.length_replicate] at h1
    have h2 : LINUX_PATH_MAX = 4096 := rfl
    omega
  · intro h
    have h1 := congrArg List.length h
    rw [List.length_append, List.length_append, List.length_take, List.length_replicate] at h1
    have h2 : LINUX_PATH_MAX = 4096 := rfl
    omega

/-! ## Error propagation of the path-only handlers -/

theorem Errno.neg_code_ne_zero (e : Errno) : -(e.code : Int) ≠ 0 := by
  have := e.pos
  omega

theorem tdiv_1000_bounds (n : Int) (h0 : 0 ≤ n) :
    1000 * Int.tdiv n 1000 ≤ n ∧ n < 1000 * Int.tdiv n 1000 + 1000 := by
  rw [Int.tdiv_eq_ediv h0 (by decide)]
  omega

theorem tdiv_1000_unique (n k : Int) (h1 : 1000 * k ≤ n) (h2 : n < 1000 * k + 1000)
    (h0 : 0 ≤ n) : Int.tdiv n 1000 = k := by
  rw [Int.tdiv_eq_ediv h0 (by decide)]
  omega

/-- C10: for a virtual path with translation `file_path`, `xmp_utimens` calls the host
`utimes` on `file_path` with, for each timestamp `(s, n)`, the pair
`(s, n / 1000)` (C division), and returns `0` or `-errno` from that call. For
`0 ≤ n < 10^9` the microsecond field `u` satisfies `0 ≤ u < 10^6` and
`1000 * u ≤ n < 1000 * u + 1000`; two requests with equal seconds whose
nanoseconds lie in the same microsecond give the same result and host state;
the nanoseconds `1999` reach the host as the microsecond `1`. -/
theorem xmp_utimens_microseconds {σ : Type} (h : PathHost σ) (PATH_MAX : Nat)
    (data : xmp_user_data) (path file_path : List Char) (ts : timespec × timespec) (s : σ)
    (hp : getpath PATH_MAX data path = some file_path) :
    (∀ r s1,
      h.utimes s file_path
          (⟨ts.1.tv_sec, Int.tdiv ts.1.tv_nsec 1000⟩, ⟨ts.2.tv_sec, Int.tdiv ts.2.tv_nsec 1000⟩)
        = (r, s1) →
      xmp_utimens h PATH_MAX data path ts s
        = some (match r with
                | .ok _ => 0
                | .err e => -(e.code : Int), s1)) ∧
    (∀ t : timespec, 0 ≤ t.tv_nsec → t.tv_nsec < 10 ^ 9 →
      (timespec_to_timeval t).tv_sec = t.tv_sec ∧
      0 ≤ (timespec_to_timeval t).tv_usec ∧ (timespec_to_timeval t).tv_usec < 10 ^ 6 ∧
      1000 * (timespec_to_timeval t).tv_usec ≤ t.tv_nsec ∧
      t.tv_nsec < 1000 * (timespec_to_timeval t).tv_usec + 1000) ∧
    (∀ (ts2 : timespec × timespec) (k1 k2 : Int),
      ts2.1.tv_sec = ts.1.tv_sec → ts2.2.tv_sec = ts.2.tv_sec →
      0 ≤ ts.1.tv_nsec → 0 ≤ ts2.1.tv_nsec → 0 ≤ ts.2.tv_nsec → 0 ≤ ts2.2.tv_nsec →
      (1000 * k1 ≤ ts.1.tv_nsec ∧ ts.1.tv_nsec < 1000 * k1 + 1000) →
      (1000 * k1 ≤ ts2.1.tv_nsec ∧ ts2.1.tv_nsec < 1000 * k1 + 1000) →
      (1000 * k2 ≤ ts.2.tv_nsec ∧ ts.2.tv_nsec < 1000 * k2 + 1000) →
      (1000 * k2 ≤ ts2.2.tv_nsec ∧ ts2.2.tv_nsec < 1000 * k2 + 1000) →
      xmp_utimens h PATH_MAX data path ts2 s = xmp_utimens h PATH_MAX data path ts s) ∧
    timespec_to_timeval ⟨5, 1999⟩ = ⟨5, 1⟩ := by
  refine ⟨?_, ?_, ?_, by decide⟩
  · intro r s1 hr
    unfold xmp_utimens timespec_to_timeval
    rw [hp]
    dsimp only
    rw [hr]
    cases r <;> rfl
  · intro t h0 h1
    have hb := tdiv_1000_bounds t.tv_nsec h0
    unfold timespec_to_timeval
    dsimp only
    refine ⟨rfl, ?_, ?_, hb.1, hb.2⟩
    · exact Int.tdiv_nonneg h0 (by decide)
    · omega
  · intro ts2 k1 k2 hs1 hs2 ha hb hc hd h1 h2 h3 h4
    have e1 : Int.tdiv ts2.1.tv_nsec 1000 = Int.tdiv ts.1.tv_nsec 1000 := by
      rw [tdiv_1000_unique _ k1 h1.1 h1.2 ha, tdiv_1000_unique _ k1 h2.1 h2.2 hb]
    have e2 : Int.tdiv ts2.2.tv_nsec 1000 = Int.tdiv ts.2.tv_nsec 1000 := by
      rw [tdiv_1000_unique _ k2 h3.1 h3.2 hc, tdiv_1000_unique _ k2 h4.1 h4.2 hd]
    unfold xmp_utimens timespec_to_timeval
    rw [hp]
    dsimp only
    rw [hs1, hs2, e1, e2]

theorem xmp_utimens_microseconds_witness :
    getpath 4096 ⟨"k".toList, "/srv".toList⟩ "/a.txt".toList = some "/srv/a.txt".toList ∧
    xmp_utimens nameHost 4096 ⟨"k".toList, "/srv".toList⟩ "/a.txt".toList
        (⟨7, 1999⟩, ⟨8, 2500⟩) ["/srv/a.txt".toList]
      = xmp_utimens nameHost 4096 ⟨"k".toList, "/srv".toList⟩ "/a.txt".toList
        (⟨7, 1000⟩, ⟨8, 2999⟩) ["/srv/a.txt".toList] :=
  ⟨by decide,
    (xmp_utimens_microseconds nameHost 4096 ⟨"k".toList, "/srv".toList⟩ "/a.txt".toList
      "/srv/a.txt".toList (⟨7, 1000⟩, ⟨8, 2999⟩) ["/srv/a.txt".toList] (by decide)).2.2.1
      (⟨7, 1999⟩, ⟨8, 2500⟩) 1 2 rfl rfl (by decide) (by decide) (by decide) (by decide)
      (by decide) (by decide) (by decide) (by decide)⟩

/-! ## Opening a file -/

theorem toInt32_of_lt (n : Nat) (h : n < 2 ^ 31) : toInt32 (n : Int) = (n : Int) := by
  unfold toInt32
  omega

theorem fdGet_lowestFree (t : List (Option OpenFile)) : fdGet t (lowestFree t) = none := by
  induction t with
  | nil => rfl
  | cons x t ih =>
    cases x with
    | none => rfl
    | some g => simpa [lowestFree, fdGet] using ih

theorem fdGet_install (f : OpenFile) (t : List (Option OpenFile)) (d : Nat) :
    fdGet (install f t) d = if d = lowestFree t then some f else fdGet t d := by
  induction t generalizing d with
  | nil =>
    cases d with
    | zero => rfl
    | succ n => simp [install, fdGet, lowestFree]
  | cons x t ih =>
    cases x with
    | none =>
      cases d with
      | zero => rfl
      | succ n => simp [install, fdGet, lowestFree]
    | some g =>
      cases d with
      | zero => simp [install, fdGet, lowestFree]
      | succ n => simp [install, fdGet, lowestFree, ih]

theorem fdGet_clear (t : List (Option OpenFile)) (d0 d : Nat) :
    fdGet (clear t d0) d = if d = d0 then none else fdGet t d := by
  induction t generalizing d0 d with
  | nil => simp [clear, fdGet]
  | cons x t ih =>
    cases d0 with
    | zero =>
      cases d with
      | zero => simp [clear, fdGet]
      | succ n => simp [clear, fdGet]
    | succ m =>
      cases d with
      | zero => simp [clear, fdGet]
      | succ n => simp [clear, fdGet, ih]

theorem host_close_fresh (s : HostState) (f : OpenFile) (files : List Char → Option (List Byte)) :
    (host_close { s with files := files, fds := install f s.fds } (lowestFree s.fds : Nat)).2
      = { s with files := files, fds := clear (install f s.fds) (lowestFree s.fds) } := by
  unfold host_close
  have h0 : ¬ (((lowestFree s.fds : Nat) : Int) < 0) := by omega
  rw [if_neg h0]
  simp only [Int.toNat_ofNat, fdGet_install, if_true]

theorem xmp_read_fst {σ : Type} (h : FileHost σ) (data : xmp_user_data) (path : List Char)
    (buf : List Byte) (size : Nat) (offset : Int) (fi : fuse_file_info) (errno : Nat) (s : σ) :
    (xmp_read h data path buf size offset fi errno s).1
      = (if toInt32 (h.pread s (toInt32 fi.fh) buf size offset).1.ret = -1
          then -(((h.pread s (toInt32 fi.fh) buf size offset).1.errno errno : Nat) : Int)
          else toInt32 (h.pread s (toInt32 fi.fh) buf size offset).1.ret) ∧
    (xmp_read h data path buf size offset fi errno s).2.1
      = (h.pread s (toInt32 fi.fh) buf size offset).2.1 ∧
    (xmp_read h data path buf size offset fi errno s).2.2
      = (h.pread s (toInt32 fi.fh) buf size offset).2.2 := by
  unfold xmp_read
  dsimp only
  split <;> exact ⟨rfl, rfl, rfl⟩

theorem xmp_write_fst {σ : Type} (h : FileHost σ) (data : xmp_user_data) (path : List Char)
    (buf : List Byte) (size : Nat) (offset : Int) (fi : fuse_file_info) (errno : Nat) (s : σ) :
    (xmp_write h data path buf size offset fi errno s).1
      = (if toInt32 (h.pwrite s (toInt32 fi.fh) buf size offset).1.ret = -1
          then -(((h.pwrite s (toInt32 fi.fh) buf size offset).1.errno errno : Nat) : Int)
          else toInt32 (h.pwrite s (toInt32 fi.fh) buf size offset).1.ret) ∧
    (xmp_write h data path buf size offset fi errno s).2
      = (h.pwrite s (toInt32 fi.fh) buf size offset).2 := by
  unfold xmp_write
  dsimp only
  split <;> exact ⟨rfl, rfl⟩

/-! ## Reading and writing through the handle -/

theorem pread_file_count_le (fl : Nat) (content : Option (List Byte)) (buf : List Byte)
    (size : Nat) (offset : Int) (n : Nat)
    (h : (pread_file fl content buf size offset).1 = .ok n) : n ≤ MAX_RW_COUNT := by
  unfold pread_file at h
  by_cases hr : readable fl = false
  · rw [if_pos hr] at h
    cases h
  · rw [if_neg hr] at h
    cases content with
    | none => cases h
    | some c =>
      dsimp only at h
      by_cases ho : offset < 0
      · rw [if_pos ho] at h
        cases h
      · rw [if_neg ho] at h
        by_cases hm : misaligned fl offset size = true
        · rw [if_pos hm] at h
          cases h
        · rw [if_neg hm] at h
          have hn := SysRet.ok.inj h
          rw [List.length_take] at hn
          omega

theorem pwrite_file_cases (fl : Nat) (c : List Byte) (buf : List Byte) (size : Nat)
    (offset : Int) :
    (∃ e, pwrite_file fl (some c) buf size offset = (.err e, none)) ∨
    (writable fl = true ∧ 0 ≤ offset ∧ misaligned fl offset size = false ∧
      pwrite_file fl (some c) buf size offset
        = (.ok (buf.take (min size MAX_RW_COUNT)).length,
            some (writeAt c (if hasFlag fl O_APPEND then c.length else offset.toNat)
              (buf.take (min size MAX_RW_COUNT))))) := by
  unfold pwrite_file
  by_cases hw : writable fl = false
  · rw [if_pos hw]
    exact Or.inl ⟨_, rfl⟩
  · rw [if_neg hw]
    dsimp only
    by_cases ho : offset < 0
    · rw [if_pos ho]
      exact Or.inl ⟨_, rfl⟩
    · rw [if_neg ho]
      by_cases hm : misaligned fl offset size = true
      · rw [if_pos hm]
        exact Or.inl ⟨_, rfl⟩
      · rw [if_neg hm]
        refine Or.inr ⟨?_, by omega, ?_, rfl⟩
        · cases hwv : writable fl
          · exact absurd hwv hw
          · rfl
        · cases hmv : misaligned fl offset size
          · rfl
          · exact absurd hmv hm

theorem host_pread_count_le (s s1 : HostState) (fd : Int) (buf buf1 : List Byte) (size : Nat)
    (offset : Int) (n : Nat) (h : host_pread s fd buf size offset = (.ok n, buf1, s1)) :
    n ≤ MAX_RW_COUNT := by
  unfold host_pread at h
  by_cases hfd : fd < 0
  · rw [if_pos hfd] at h
    cases h
  · rw [if_neg hfd] at h
    cases hg : fdGet s.fds fd.toNat with
    | none =>
      rw [hg] at h
      cases h
    | some f =>
      rw [hg] at h
      dsimp only at h
      exact pread_file_count_le f.flags (s.files f.path) buf size offset n
        (congrArg (fun x => x.1) h)

theorem host_pwrite_count_le (s s1 : HostState) (fd : Int) (buf : List Byte) (size : Nat)
    (offset : Int) (n : Nat) (h : host_pwrite s fd buf size offset = (.ok n, s1)) :
    n ≤ MAX_RW_COUNT := by
  unfold host_pwrite at h
  by_cases hfd : fd < 0
  · rw [if_pos hfd] at h
    cases h
  · rw [if_neg hfd] at h
    cases hg : fdGet s.fds fd.toNat with
    | none =>
      rw [hg] at h
      cases h
    | some f =>
      rw [hg] at h
      dsimp only at h
      cases hc : s.files f.path with
      | none =>
        rw [hc] at h
        have h1 : (pwrite_file f.flags none buf size offset) = (.err EBADF, none) := by
          unfold pwrite_file
          split <;> rfl
        rw [h1] at h
        cases h
      | some c =>
        rw [hc] at h
        rcases pwrite_file_cases f.flags c buf size offset with ⟨e, he⟩ | ⟨_, _, _, hok⟩
        · rw [he] at h
          cases h
        · rw [hok] at h
          have hn := congrArg (fun x => x.1) h
          dsimp only at hn
          have hn1 := SysRet.ok.inj hn
          rw [List.length_take] at hn1
          omega

theorem toInt32_of_le_max (n : Nat) (h : n ≤ MAX_RW_COUNT) : toInt32 (n : Int) = (n : Int) := by
  have hm : MAX_RW_COUNT = 2147479552 := rfl
  exact toInt32_of_lt n (by omega)

/-- C5: `xmp_read` and `xmp_write` make exactly one host call, `pread` or `pwrite` on
`(int) fi->fh` with the caller's buffer, size and offset, and their result and
final host state do not depend on the path argument or on the session data.
For every size the result is the byte count `n` the host reports, a host
reporting at most `MAX_RW_COUNT` bytes for one call as the host model does,
and `-e` when the host call fails with code `e`. -/
theorem xmp_read_write_handle_only {σ : Type} (h : FileHost σ) (data1 data2 : xmp_user_data)
    (path1 path2 : List Char) (buf : List Byte) (size : Nat) (offset : Int)
    (fi : fuse_file_info) (errno : Nat) (s : σ) (log : List HostCall) (hs : HostState) :
    xmp_read h data1 path1 buf size offset fi errno s
      = xmp_read h data2 path2 buf size offset fi errno s ∧
    xmp_write h data1 path1 buf size offset fi errno s
      = xmp_write h data2 path2 buf size offset fi errno s ∧
    (xmp_read h.traced data1 path1 buf size offset fi errno (s, log)).2.2.2
      = log ++ [HostCall.pread (toInt32 fi.fh) buf size offset] ∧
    (xmp_write h.traced data1 path1 buf size offset fi errno (s, log)).2.2
      = log ++ [HostCall.pwrite (toInt32 fi.fh) buf size offset] ∧
    (∀ n buf1 s1, h.pread s (toInt32 fi.fh) buf size offset = (.ok n, buf1, s1) →
      n ≤ MAX_RW_COUNT →
      xmp_read h data1 path1 buf size offset fi errno s = ((n : Int), buf1, s1)) ∧
    (∀ e buf1 s1, h.pread s (toInt32 fi.fh) buf size offset = (.err e, buf1, s1) →
      xmp_read h data1 path1 buf size offset fi errno s = (-(e.code : Int), buf1, s1)) ∧
    (∀ n s1, h.pwrite s (toInt32 fi.fh) buf size offset = (.ok n, s1) →
      n ≤ MAX_RW_COUNT →
      xmp_write h data1 path1 buf size offset fi errno s = ((n : Int), s1)) ∧
    (∀ e s1, h.pwrite s (toInt32 fi.fh) buf size offset = (.err e, s1) →
      xmp_write h data1 path1 buf size offset fi errno s = (-(e.code : Int), s1)) ∧
    (∀ n buf1 s1, host_pread hs (toInt32 fi.fh) buf size offset = (.ok n, buf1, s1) →
      xmp_read hostFiles data1 path1 buf size offset fi errno hs = ((n : Int), buf1, s1)) ∧
    (∀ n s1, host_pwrite hs (toInt32 fi.fh) buf size offset = (.ok n, s1) →
      xmp_write hostFiles data1 path1 buf size offset fi errno hs = ((n : Int), s1)) := by
  have rd : ∀ {τ : Type} (g : FileHost τ) (t : τ) (n : Nat) (buf1 : List Byte) (t1 : τ),
      g.pread t (toInt32 fi.fh) buf size offset = (.ok n, buf1, t1) → n ≤ MAX_RW_COUNT →
      xmp_read g data1 path1 buf size offset fi errno t = ((n : Int), buf1, t1) := by
    intro τ g t n buf1 t1 hr hn
    rw [xmp_read, hr]
    dsimp only [SysRet.ret]
    rw [toInt32_of_le_max n hn]
    have : ¬ ((n : Int) = -1) := by omega
    rw [if_neg this]
  have wr : ∀ {τ : Type} (g : FileHost τ) (t : τ) (n : Nat) (t1 : τ),
      g.pwrite t (toInt32 fi.fh) buf size offset = (.ok n, t1) → n ≤ MAX_RW_COUNT →
      xmp_write g data1 path1 buf size offset fi errno t = ((n : Int), t1) := by
    intro τ g t n t1 hr hn
    rw [xmp_write, hr]
    dsimp only [SysRet.ret]
    rw [toInt32_of_le_max n hn]
    have : ¬ ((n : Int) = -1) := by omega
    rw [if_neg this]
  refine ⟨rfl, rfl, ?_, ?_, rd h s, ?_, wr h s, ?_, ?_, ?_⟩
  · unfold xmp_read
    dsimp only [FileHost.traced]
    split <;> rfl
  · unfold xmp_write
    dsimp only [FileHost.traced]
    split <;> rfl
  · intro e buf1 s1 hr
    unfold xmp_read
    rw [hr]
    dsimp only [SysRet.ret, SysRet.errno]
    rw [if_pos (by decide)]
  · intro e s1 hr
    unfold xmp_write
    rw [hr]
    dsimp only [SysRet.ret, SysRet.errno]
    rw [if_pos (by decide)]
  · intro n buf1 s1 hr
    exact rd hostFiles hs n buf1 s1 hr (host_pread_count_le hs s1 _ buf buf1 size offset n hr)
  · intro n s1 hr
    exact wr hostFiles hs n s1 hr (host_pwrite_count_le hs s1 _ buf size offset n hr)

theorem xmp_read_write_handle_only_witness :
    host_pread demoHost1 (toInt32 3) [0, 0, 0] 3 0 = (.ok 3, [1, 2, 3], demoHost1) ∧
    xmp_read hostFiles demoData "/old".toList [0, 0, 0] 3 0 (demoFi 0 3) 0 demoHost1
      = (3, [1, 2, 3], demoHost1) :=
  ⟨rfl,
    (xmp_read_write_handle_only hostFiles demoData demoData "/old".toList "/old".toList
      [0, 0, 0] 3 0 (demoFi 0 3) 0 demoHost1 [] demoHost1).2.2.2.2.2.2.2.2.1 3 [1, 2, 3]
      demoHost1 rfl⟩

/-! ## Creating a file -/

theorem host_pread_congr (s t : HostState) (fd : Int) (buf : List Byte) (size : Nat)
    (offset : Int) (hf : s.files = t.files) (hd : s.descriptor fd = t.descriptor fd) :
    (host_pread s fd buf size offset).1 = (host_pread t fd buf size offset).1 ∧
    (host_pread s fd buf size offset).2.1 = (host_pread t fd buf size offset).2.1 := by
  unfold HostState.descriptor at hd
  unfold host_pread
  by_cases hfd : fd < 0
  · simp only [hfd, if_true, and_self]
  · rw [if_neg hfd, if_neg hfd] at hd
    rw [if_neg hfd, if_neg hfd, hd, hf]
    cases fdGet t.fds fd.toNat with
    | none => exact ⟨rfl, rfl⟩
    | some f => exact ⟨rfl, rfl⟩

theorem host_pwrite_congr (s t : HostState) (fd : Int) (buf : List Byte) (size : Nat)
    (offset : Int) (hf : s.files = t.files) (hd : s.descriptor fd = t.descriptor fd) :
    (host_pwrite s fd buf size offset).1 = (host_pwrite t fd buf size offset).1 ∧
    (host_pwrite s fd buf size offset).2.files = (host_pwrite t fd buf size offset).2.files := by
  unfold HostState.descriptor at hd
  unfold host_pwrite
  by_cases hfd : fd < 0
  · simp only [hfd, if_true, hf, and_self]
  · rw [if_neg hfd, if_neg hfd] at hd
    rw [if_neg hfd, if_neg hfd, hd, hf]
    cases fdGet t.fds fd.toNat with
    | none => exact ⟨rfl, hf⟩
    | some f =>
      dsimp only
      rcases pwrite_file f.flags (t.files f.path) buf size offset with ⟨r, c | c⟩
      · exact ⟨rfl, hf⟩
      · exact ⟨rfl, rfl⟩

theorem openAt_ok (s s1 : HostState) (p : List Char) (fl d : Nat)
    (files : List Char → Option (List Byte)) (h : openAt s p fl files = (.ok d, s1)) :
    d = lowestFree s.fds ∧ d < OPEN_MAX ∧ s1.fds = install ⟨p, fl⟩ s.fds ∧
    s1.dirs = s.dirs ∧ s1.files = files := by
  unfold openAt at h
  by_cases hfull : OPEN_MAX ≤ lowestFree s.fds
  · rw [if_pos hfull] at h
    cases h
  · rw [if_neg hfull] at h
    cases h
    exact ⟨rfl, by omega, rfl, rfl, rfl⟩

theorem host_open2_ok (s s1 : HostState) (p : List Char) (fl d : Nat)
    (h : host_open2 s p fl = (.ok d, s1)) :
    d = lowestFree s.fds ∧ d < OPEN_MAX ∧ s1.fds = install ⟨p, fl⟩ s.fds ∧
    s1.dirs = s.dirs ∧
    (∀ c, s.files p = some c →
      s1.files = if hasFlag fl O_TRUNC && !hasFlag fl O_PATH
        then (fun q => if q = p then some [] else s.files q) else s.files) := by
  unfold host_open2 at h
  cases hf : s.files p with
  | some c =>
    rw [hf] at h
    dsimp only at h
    cases hdir : hasFlag fl O_DIRECTORY
    · rw [hdir] at h
      cases hpath : hasFlag fl O_PATH
      · rw [hpath] at h
        cases hce : (hasFlag fl O_CREAT && hasFlag fl O_EXCL)
        · rw [hce] at h
          obtain ⟨h1, h2, h3, h4, h5⟩ := openAt_ok s s1 p fl d _ h
          refine ⟨h1, h2, h3, h4, fun _ _ => ?_⟩
          rw [h5]
          cases hasFlag fl O_TRUNC <;> rfl
        · rw [hce] at h
          cases h
      · rw [hpath] at h
        obtain ⟨h1, h2, h3, h4, h5⟩ := openAt_ok s s1 p fl d _ h
        refine ⟨h1, h2, h3, h4, fun _ _ => ?_⟩
        rw [h5]
        cases hasFlag fl O_TRUNC <;> rfl
    · rw [hdir] at h
      cases h
  | none =>
    rw [hf] at h
    dsimp only at h
    cases hd : s.dirs p with
    | some es =>
      rw [hd] at h
      dsimp only at h
      cases hpath : hasFlag fl O_PATH
      · rw [hpath] at h
        cases hm : (fl % 4 != 0 || hasFlag fl O_CREAT)
        · rw [hm] at h
          obtain ⟨h1, h2, h3, h4, _⟩ := openAt_ok s s1 p fl d _ h
          exact ⟨h1, h2, h3, h4, fun c hc => (by cases hc)⟩
        · rw [hm] at h
          cases h
      · rw [hpath] at h
        obtain ⟨h1, h2, h3, h4, _⟩ := openAt_ok s s1 p fl d _ h
        exact ⟨h1, h2, h3, h4, fun c hc => (by cases hc)⟩
    | none =>
      rw [hd] at h
      dsimp only at h
      cases hcr : (hasFlag fl O_CREAT && !hasFlag fl O_PATH && !hasFlag fl O_DIRECTORY)
      · rw [hcr] at h
        cases h
      · rw [hcr] at h
        obtain ⟨h1, h2, h3, h4, _⟩ := openAt_ok s s1 p fl d _ h
        exact ⟨h1, h2, h3, h4, fun c hc => (by cases hc)⟩

theorem xmp_open_ok (PATH_MAX : Nat) (data : xmp_user_data) (path : List Char)
    (fi fi1 : fuse_file_info) (s s1 : HostState)
    (h : xmp_open hostFiles PATH_MAX data path fi s = some (0, fi1, s1)) :
    ∃ fp, getpath PATH_MAX data path = some fp ∧
      host_open2 s fp fi.flags = (.ok fi1.fh, s1) ∧ fi1.flags = fi.flags := by
  unfold xmp_open at h
  cases hp : getpath PATH_MAX data path with
  | none =>
    rw [hp] at h
    cases h
  | some fp =>
    rw [hp] at h
    dsimp only [hostFiles] at h
    refine ⟨fp, rfl, ?_⟩
    rcases hq : host_open2 s fp fi.flags with ⟨d | e, s2⟩
    · rw [hq] at h
      dsimp only at h
      cases h
      exact ⟨rfl, rfl⟩
    · rw [hq] at h
      dsimp only at h
      have h1 := congrArg (fun x => x.1) (Option.some.inj h)
      exact absurd h1 (Errno.neg_code_ne_zero e)

theorem release_isolated (s : HostState) (data : xmp_user_data) (path : List Char)
    (fa fb : fuse_file_info) (f : OpenFile) (ha : fa.fh < 2 ^ 31) (hb : fb.fh < 2 ^ 31)
    (hne : fa.fh ≠ fb.fh) (hopen : fdGet s.fds fa.fh = some f) :
    ∃ s3, xmp_release hostFiles data path fa s = (0, s3) ∧ s3.files = s.files ∧
      (∀ fd : Int, s3.descriptor fd = if fd = (fa.fh : Int) then none else s.descriptor fd) ∧
      ∀ (buf : List Byte) (size : Nat) (offset : Int) (errno : Nat),
        (xmp_read hostFiles data path buf size offset fb errno s3).1
          = (xmp_read hostFiles data path buf size offset fb errno s).1 ∧
        (xmp_read hostFiles data path buf size offset fb errno s3).2.1
          = (xmp_read hostFiles data path buf size offset fb errno s).2.1 ∧
        (xmp_write hostFiles data path buf size offset fb errno s3).1
          = (xmp_write hostFiles data path buf size offset fb errno s).1 ∧
        (xmp_write hostFiles data path buf size offset fb errno s3).2.files
          = (xmp_write hostFiles data path buf size offset fb errno s).2.files := by
  have hdesc : ∀ fd : Int,
      HostState.descriptor { s with fds := clear s.fds fa.fh } fd
        = if fd = (fa.fh : Int) then none else s.descriptor fd := by
    intro fd
    unfold HostState.descriptor
    dsimp only
    by_cases hfd : fd < 0
    · rw [if_pos hfd, if_pos hfd]
      split <;> rfl
    · rw [if_neg hfd, if_neg hfd, fdGet_clear]
      by_cases he : fd = (fa.fh : Int)
      · have : fd.toNat = fa.fh := by omega
        rw [if_pos he, if_pos this]
      · have : ¬ fd.toNat = fa.fh := by omega
        rw [if_neg he, if_neg this]
  refine ⟨{ s with fds := clear s.fds fa.fh }, ?_, rfl, hdesc, ?_⟩
  · unfold xmp_release
    dsimp only [hostFiles]
    rw [toInt32_of_lt _ ha]
    unfold host_close
    have h0 : ¬ ((fa.fh : Int) < 0) := by omega
    rw [if_neg h0, Int.toNat_ofNat, hopen]
  · intro buf size offset errno
    have hd : HostState.descriptor { s with fds := clear s.fds fa.fh } (toInt32 fb.fh)
        = s.descriptor (toInt32 fb.fh) := by
      rw [hdesc, toInt32_of_lt _ hb]
      have : ¬ ((fb.fh : Int) = (fa.fh : Int)) := by omega
      rw [if_neg this]
    have hr := host_pread_congr { s with fds := clear s.fds fa.fh } s (toInt32 fb.fh) buf size
      offset rfl hd
    have hw := host_pwrite_congr { s with fds := clear s.fds fa.fh } s (toInt32 fb.fh) buf size
      offset rfl hd
    have r1 := xmp_read_fst hostFiles data path buf size offset fb errno
      { s with fds := clear s.fds fa.fh }
    have r2 := xmp_read_fst hostFiles data path buf size offset fb errno s
    have w1 := xmp_write_fst hostFiles data path buf size offset fb errno
      { s with fds := clear s.fds fa.fh }
    have w2 := xmp_write_fst hostFiles data path buf size offset fb errno s
    dsimp only [hostFiles] at r1 r2 w1 w2
    refine ⟨?_, ?_, ?_, ?_⟩
    · rw [r1.1, r2.1, hr.1]
    · rw [r1.2.1, r2.2.1, hr.2]
    · rw [w1.1, w2.1, hw.1]
    · rw [w1.2, w2.2, hw.2]

/-- C6: on the host model, two successful `xmp_open` calls on the same virtual path
leave different values in their `fi->fh`; `xmp_release` on either handle
returns `0`, closes the descriptor in that `fi->fh` and no other, and leaves
the files as they were; `xmp_read` and `xmp_write` through the other handle
then give the same result, the same buffer and the same file contents as
without the release. -/
theorem handle_isolation (PATH_MAX : Nat) (data : xmp_user_data) (path : List Char)
    (fi1 fi2 fa fb : fuse_file_info) (s0 s1 s2 : HostState)
    (h1 : xmp_open hostFiles PATH_MAX data path fi1 s0 = some (0, fa, s1))
    (h2 : xmp_open hostFiles PATH_MAX data path fi2 s1 = some (0, fb, s2)) :
    fa.fh ≠ fb.fh ∧
    (∃ s3, xmp_release hostFiles data path fa s2 = (0, s3) ∧ s3.files = s2.files ∧
      (∀ fd : Int, s3.descriptor fd = if fd = (fa.fh : Int) then none else s2.descriptor fd) ∧
      ∀ (buf : List Byte) (size : Nat) (offset : Int) (errno : Nat),
        (xmp_read hostFiles data path buf size offset fb errno s3).1
          = (xmp_read hostFiles data path buf size offset fb errno s2).1 ∧
        (xmp_read hostFiles data path buf size offset fb errno s3).2.1
          = (xmp_read hostFiles data path buf size offset fb errno s2).2.1 ∧
        (xmp_write hostFiles data path buf size offset fb errno s3).1
          = (xmp_write hostFiles data path buf size offset fb errno s2).1 ∧
        (xmp_write hostFiles data path buf size offset fb errno s3).2.files
          = (xmp_write hostFiles data path buf size offset fb errno s2).2.files) ∧
    (∃ s3, xmp_release hostFiles data path fb s2 = (0, s3) ∧ s3.files = s2.files ∧
      (∀ fd : Int, s3.descriptor fd = if fd = (fb.fh : Int) then none else s2.descriptor fd) ∧
      ∀ (buf : List Byte) (size : Nat) (offset : Int) (errno : Nat),
        (xmp_read hostFiles data path buf size offset fa errno s3).1
          = (xmp_read hostFiles data path buf size offset fa errno s2).1 ∧
        (xmp_read hostFiles data path buf size offset fa errno s3).2.1
          = (xmp_read hostFiles data path buf size offset fa errno s2).2.1 ∧
        (xmp_write hostFiles data path buf size offset fa errno s3).1
          = (xmp_write hostFiles data path buf size offset fa errno s2).1 ∧
        (xmp_write hostFiles data path buf size offset fa errno s3).2.files
          = (xmp_write hostFiles data path buf size offset fa errno s2).2.files) := by
  obtain ⟨fp1, hp1, ho1, _⟩ := xmp_open_ok PATH_MAX data path fi1 fa s0 s1 h1
  obtain ⟨fp2, hp2, ho2, _⟩ := xmp_open_ok PATH_MAX data path fi2 fb s1 s2 h2
  obtain ⟨hd1, hlt1, hfds1, _, _⟩ := host_open2_ok s0 s1 fp1 fi1.flags fa.fh ho1
  obtain ⟨hd2, hlt2, hfds2, _, _⟩ := host_open2_ok s1 s2 fp2 fi2.flags fb.fh ho2
  have hmax : OPEN_MAX = 1024 := rfl
  have ha : fa.fh < 2 ^ 31 := by omega
  have hb : fb.fh < 2 ^ 31 := by omega
  have hopen1 : fdGet s1.fds fa.fh = some ⟨fp1, fi1.flags⟩ := by
    rw [hfds1, fdGet_install, if_pos hd1]
  have hne : fa.fh ≠ fb.fh := by
    intro he
    have hnone : fdGet s1.fds fb.fh = none := by
      rw [hd2]
      exact fdGet_lowestFree s1.fds
    rw [← he, hopen1] at hnone
    cases hnone
  have hopenA : fdGet s2.fds fa.fh = some ⟨fp1, fi1.flags⟩ := by
    rw [hfds2, fdGet_install, if_neg (by rw [← hd2]; exact hne)]
    exact hopen1
  have hopenB : fdGet s2.fds fb.fh = some ⟨fp2, fi2.flags⟩ := by
    rw [hfds2, fdGet_install, if_pos hd2]
  exact ⟨hne, release_isolated s2 data path fa fb _ ha hb hne hopenA,
    release_isolated s2 data path fb fa _ hb ha (Ne.symm hne) hopenB⟩

theorem handle_isolation_witness :
    xmp_open hostFiles 4096 demoData "/old".toList (demoFi 0 0) demoHost
      = some (0, demoFi 0 3, demoHost1) ∧
    xmp_open hostFiles 4096 demoData "/old".toList (demoFi 2 0) demoHost1
      = some (0, demoFi 2 4, demoHost2) ∧
    (demoFi 0 3).fh ≠ (demoFi 2 4).fh :=
  ⟨rfl, rfl,
    (handle_isolation 4096 demoData "/old".toList (demoFi 0 0) (demoFi 2 0) (demoFi 0 3)
      (demoFi 2 4) demoHost demoHost1 demoHost2 rfl rfl).1⟩

/-! ## Round trip of content on the host model -/

theorem writeAt_read_back (c : List Byte) (o : Nat) (d : List Byte) :
    ((writeAt c o d).drop o).take d.length = d := by
  unfold writeAt
  have hlen : (c.take o ++ List.replicate (o - c.length) (0 : Byte)).length = o := by
    rw [List.length_append, List.length_take, List.length_replicate]
    omega
  rw [List.append_assoc, List.drop_left' hlen, List.take_left' rfl]

theorem writeAt_nil (o : Nat) (d : List Byte) :
    writeAt [] o d = List.replicate o 0 ++ d := by
  unfold writeAt
  simp

theorem xmp_create_ok (PATH_MAX : Nat) (data : xmp_user_data) (path : List Char) (mode : Nat)
    (fi fic : fuse_file_info) (s s1 : HostState)
    (h : xmp_create hostFiles PATH_MAX data path mode fi s = some (0, fic, s1)) :
    ∃ fp, getpath PATH_MAX data path = some fp ∧ s1.files fp = some [] := by
  unfold xmp_create at h
  cases hp : getpath PATH_MAX data path with
  | none =>
    rw [hp] at h
    cases h
  | some fp =>
    rw [hp] at h
    dsimp only [hostFiles] at h
    refine ⟨fp, rfl, ?_⟩
    unfold host_creat at h
    cases hdir : s.dirs fp with
    | some es =>
      rw [hdir] at h
      dsimp only at h
      have h1 := congrArg (fun x => x.1) (Option.some.inj h)
      exact absurd h1 (Errno.neg_code_ne_zero EISDIR)
    | none =>
      rw [hdir] at h
      dsimp only at h
      by_cases hfull : OPEN_MAX ≤ lowestFree s.fds
      · rw [if_pos hfull] at h
        dsimp only at h
        have h1 := congrArg (fun x => x.1) (Option.some.inj h)
        exact absurd h1 (Errno.neg_code_ne_zero EMFILE)
      · rw [if_neg hfull] at h
        dsimp only at h
        rw [host_close_fresh] at h
        have h1 := congrArg (fun x => x.2.2) (Option.some.inj h)
        dsimp only at h1
        rw [← h1]
        dsimp only
        rw [if_pos rfl]

theorem host_close_files (s : HostState) (fd : Int) :
    (host_close s fd).2.files = s.files := by
  unfold host_close
  by_cases hfd : fd < 0
  · rw [if_pos hfd]
  · rw [if_neg hfd]
    cases fdGet s.fds fd.toNat <;> rfl

theorem xmp_release_files (data : xmp_user_data) (path : List Char) (fi : fuse_file_info)
    (s : HostState) : (xmp_release hostFiles data path fi s).2.files = s.files := by
  have h := host_close_files s (toInt32 fi.fh)
  unfold xmp_release
  dsimp only [hostFiles]
  rcases hq : host_close s (toInt32 fi.fh) with ⟨r | e, s1⟩
  · rw [hq] at h
    exact h
  · rw [hq] at h
    exact h

theorem xmp_write_full (data : xmp_user_data) (path : List Char) (b : List Byte) (o : Int)
    (fi : fuse_file_info) (errno : Nat) (s s3 : HostState) (f : OpenFile) (c : List Byte)
    (hfh : fi.fh < 2 ^ 31) (hfd : fdGet s.fds fi.fh = some f) (hc : s.files f.path = some c)
    (hna : hasFlag f.flags O_APPEND = false)
    (h : xmp_write hostFiles data path b b.length o fi errno s = ((b.length : Int), s3)) :
    b.length ≤ MAX_RW_COUNT ∧ s3.files f.path = some (writeAt c o.toNat b) := by
  have hw := xmp_write_fst hostFiles data path b b.length o fi errno s
  rw [h] at hw
  dsimp only at hw
  rw [toInt32_of_lt _ hfh] at hw
  have h0 : ¬ ((fi.fh : Int) < 0) := by omega
  have hp : host_pwrite s (fi.fh : Int) b b.length o
      = (match pwrite_file f.flags (some c) b b.length o with
        | (r, none) => (r, s)
        | (r, some c1) =>
          (r, { s with files := fun p => if p = f.path then some c1 else s.files p })) := by
    unfold host_pwrite
    rw [if_neg h0, Int.toNat_ofNat, hfd]
    dsimp only
    rw [hc]
  rw [hp] at hw
  rcases pwrite_file_cases f.flags c b b.length o with ⟨e, he⟩ | ⟨_, _, _, hok⟩
  · rw [he] at hw
    dsimp only [SysRet.ret, SysRet.errno] at hw
    rw [if_pos (by decide)] at hw
    have h1 := hw.1
    have h2 := e.pos
    omega
  · rw [hok, hna] at hw
    dsimp only [SysRet.ret, SysRet.errno] at hw
    have hle : (b.take (min b.length MAX_RW_COUNT)).length ≤ MAX_RW_COUNT := by
      rw [List.length_take]
      omega
    rw [toInt32_of_le_max _ hle] at hw
    have hne : ¬ (((b.take (min b.length MAX_RW_COUNT)).length : Int) = -1) := by omega
    rw [if_neg hne] at hw
    have hlen : b.length ≤ MAX_RW_COUNT := by
      have h1 := hw.1
      rw [List.length_take] at h1
      omega
    refine ⟨hlen, ?_⟩
    rw [hw.2]
    dsimp only
    rw [if_pos rfl, Nat.min_eq_left hlen, List.take_of_length_le (le_refl _)]
    rfl

theorem xmp_read_full (data : xmp_user_data) (path : List Char) (buf : List Byte) (size : Nat)
    (o : Int) (fi : fuse_file_info) (errno : Nat) (s : HostState) (f : OpenFile)
    (c : List Byte) (hfh : fi.fh < 2 ^ 31) (hfd : fdGet s.fds fi.fh = some f)
    (hc : s.files f.path = some c) (ho : 0 ≤ o) (hr : readable f.flags = true)
    (hnd : hasFlag f.flags O_DIRECT = false) (hsz : size ≤ MAX_RW_COUNT) :
    xmp_read hostFiles data path buf size o fi errno s
      = ((((c.drop o.toNat).take size).length : Int),
          (c.drop o.toNat).take size ++ buf.drop ((c.drop o.toNat).take size).length, s) := by
  have h0 : ¬ ((fi.fh : Int) < 0) := by omega
  have ho1 : ¬ (o < 0) := by omega
  have hrf : ¬ (readable f.flags = false) := by
    rw [hr]
    exact Bool.noConfusion
  have hmis : ¬ (misaligned f.flags o size = true) := by
    unfold misaligned
    rw [hnd, Bool.false_and]
    exact Bool.noConfusion
  have hp : host_pread s (fi.fh : Int) buf size o
      = (.ok ((c.drop o.toNat).take size).length,
          (c.drop o.toNat).take size ++ buf.drop ((c.drop o.toNat).take size).length, s) := by
    unfold host_pread
    rw [if_neg h0, Int.toNat_ofNat, hfd]
    dsimp only
    rw [hc]
    unfold pread_file
    rw [if_neg hrf]
    dsimp only
    rw [if_neg ho1, if_neg hmis, Nat.min_eq_left hsz]
  have hlen : ((c.drop o.toNat).take size).length ≤ MAX_RW_COUNT := by
    rw [List.length_take]
    omega
  have hx := xmp_read_fst hostFiles data path buf size o fi errno s
  rw [toInt32_of_lt _ hfh] at hx
  dsimp only at hx
  rw [hp] at hx
  dsimp only [SysRet.ret] at hx
  rw [toInt32_of_le_max _ hlen] at hx
  have hne : ¬ ((((c.drop o.toNat).take size).length : Int) = -1) := by omega
  rw [if_neg hne] at hx
  exact Prod.ext hx.1 (Prod.ext hx.2.1 hx.2.2)

/-- C7 (amended): on the host model, after a successful `xmp_create` of a virtual
path, a successful `xmp_open` of it without `O_APPEND`, an `xmp_write` of `b`
at offset `o ≥ 0` through that handle returning `|b|`, and `xmp_release`, a
handle freshly opened on the same path for reading (access mode `O_RDONLY` or
`O_RDWR`, without `O_PATH`, `O_TRUNC` or `O_DIRECT`) gives `xmp_read` of size
`|b|` at offset `o` returning `|b|` with the first `|b|` bytes of the buffer
equal to `b`; the backing file holds `o` zero bytes followed by `b`. -/
theorem content_round_trip (PATH_MAX : Nat) (data : xmp_user_data) (path : List Char)
    (mode : Nat) (fi0 fic fiw fiw1 fir fir1 : fuse_file_info) (b buf0 : List Byte) (o : Int)
    (errno_w errno_r : Nat) (rr : Int) (s0 s1 s2 s3 s4 s5 : HostState)
    (ho : 0 ≤ o)
    (hcreate : xmp_create hostFiles PATH_MAX data path mode fi0 s0 = some (0, fic, s1))
    (hopenw : xmp_open hostFiles PATH_MAX data path fiw s1 = some (0, fiw1, s2))
    (hna : hasFlag fiw.flags O_APPEND = false)
    (hwrite : xmp_write hostFiles data path b b.length o fiw1 errno_w s2
      = ((b.length : Int), s3))
    (hrel : xmp_release hostFiles data path fiw1 s3 = (rr, s4))
    (hopenr : xmp_open hostFiles PATH_MAX data path fir s4 = some (0, fir1, s5))
    (hrd : readable fir.flags = true) (hnt : hasFlag fir.flags O_TRUNC = false)
    (hnd : hasFlag fir.flags O_DIRECT = false) :
    xmp_read hostFiles data path buf0 b.length o fir1 errno_r s5
      = ((b.length : Int), b ++ buf0.drop b.length, s5) ∧
    (b ++ buf0.drop b.length).take b.length = b ∧
    ∃ fp, getpath PATH_MAX data path = some fp ∧
      s5.files fp = some (List.replicate o.toNat 0 ++ b) := by
  obtain ⟨fp, hp, hfile1⟩ := xmp_create_ok PATH_MAX data path mode fi0 fic s0 s1 hcreate
  obtain ⟨fp2, hp2, how, _⟩ := xmp_open_ok PATH_MAX data path fiw fiw1 s1 s2 hopenw
  obtain ⟨fp3, hp3, hor, _⟩ := xmp_open_ok PATH_MAX data path fir fir1 s4 s5 hopenr
  rw [hp] at hp2 hp3
  cases hp2
  cases hp3
  have hmax : OPEN_MAX = 1024 := rfl
  obtain ⟨hdw, hltw, hfdsw, _, hfilesw⟩ := host_open2_ok s1 s2 fp fiw.flags fiw1.fh how
  have hfile2 : s2.files fp = some [] := by
    rw [hfilesw [] hfile1]
    split
    · dsimp only
      rw [if_pos rfl]
    · exact hfile1
  have hfdw : fdGet s2.fds fiw1.fh = some ⟨fp, fiw.flags⟩ := by
    rw [hfdsw, fdGet_install, if_pos hdw]
  obtain ⟨hblen, hfile3⟩ := xmp_write_full data path b o fiw1 errno_w s2 s3 ⟨fp, fiw.flags⟩ []
    (by omega) hfdw hfile2 hna hwrite
  dsimp only at hfile3
  have hfile4 : s4.files fp = some (writeAt [] o.toNat b) := by
    have h1 := xmp_release_files data path fiw1 s3
    rw [hrel] at h1
    dsimp only at h1
    rw [h1]
    exact hfile3
  obtain ⟨hdr, hltr, hfdsr, _, hfilesr⟩ := host_open2_ok s4 s5 fp fir.flags fir1.fh hor
  have hfile5 : s5.files fp = some (writeAt [] o.toNat b) := by
    rw [hfilesr _ hfile4, hnt, Bool.false_and]
    exact hfile4
  have hfdr : fdGet s5.fds fir1.fh = some ⟨fp, fir.flags⟩ := by
    rw [hfdsr, fdGet_install, if_pos hdr]
  have hback := writeAt_read_back [] o.toNat b
  have hread := xmp_read_full data path buf0 b.length o fir1 errno_r s5 ⟨fp, fir.flags⟩
    (writeAt [] o.toNat b) (by omega) hfdr hfile5 ho hrd hnd hblen
  rw [hback] at hread
  refine ⟨hread, List.take_left' rfl, fp, hp, ?_⟩
  rw [hfile5, writeAt_nil]

theorem content_round_trip_witness :
    xmp_create hostFiles 4096 demoData "/new".toList 420 (demoFi 577 0) demoHost
      = some (0, demoFi 577 0, tripHost1) ∧
    xmp_open hostFiles 4096 demoData "/new".toList (demoFi 1 0) tripHost1
      = some (0, demoFi 1 3, tripHost2) ∧
    xmp_write hostFiles demoData "/new".toList [7, 8, 9] 3 2 (demoFi 1 3) 0 tripHost2
      = (3, tripHost3) ∧
    xmp_release hostFiles demoData "/new".toList (demoFi 1 3) tripHost3 = (0, tripHost4) ∧
    xmp_open hostFiles 4096 demoData "/new".toList (demoFi 0 0) tripHost4
      = some (0, demoFi 0 3, tripHost5) ∧
    xmp_read hostFiles demoData "/new".toList [5, 5, 5, 5] 3 2 (demoFi 0 3) 0 tripHost5
      = (3, [7, 8, 9, 5], tripHost5) :=
  ⟨rfl, rfl, rfl, rfl, rfl,
    (content_round_trip 4096 demoData "/new".toList 420 (demoFi 577 0) (demoFi 577 0)
      (demoFi 1 0) (demoFi 1 3) (demoFi 0 0) (demoFi 0 3) [7, 8, 9] [5, 5, 5, 5] 2 0 0 0
      demoHost tripHost1 tripHost2 tripHost3 tripHost4 tripHost5 (by decide) rfl rfl rfl rfl
      rfl rfl rfl rfl rfl).1⟩

/-- C7 (counterexample): on the host model, after `xmp_create` of the new path `/new`,
a successful `xmp_open` with `O_WRONLY|O_APPEND`, `xmp_write` of `[7, 8, 9]` at
offset `2` returning `3`, and `xmp_release`, the file holds `[7, 8, 9]` from
offset `0` and a handle freshly opened read-only gives `xmp_read` of size `3`
at offset `2` returning `1`, not `3`. -/
theorem content_round_trip_fails_with_append :
    demoHost.files "/srv/new".toList = none ∧
    xmp_create hostFiles 4096 demoData "/new".toList 420 (demoFi 577 0) demoHost
      = some (0, demoFi 577 0, tripHost1) ∧
    xmp_open hostFiles 4096 demoData "/new".toList (demoFi 1025 0) tripHost1
      = some (0, demoFi 1025 3, appendHost2) ∧
    xmp_write hostFiles demoData "/new".toList [7, 8, 9] 3 2 (demoFi 1025 3) 0 appendHost2
      = (3, appendHost3) ∧
    xmp_release hostFiles demoData "/new".toList (demoFi 1025 3) appendHost3
      = (0, appendHost4) ∧
    xmp_open hostFiles 4096 demoData "/new".toList (demoFi 0 0) appendHost4
      = some (0, demoFi 0 3, appendHost5) ∧
    appendHost5.files "/srv/new".toList = some [7, 8, 9] ∧
    xmp_read hostFiles demoData "/new".toList [5, 5, 5, 5] 3 2 (demoFi 0 3) 0 appendHost5
      = (1, [9, 5, 5, 5], appendHost5) :=
  ⟨rfl, rfl, rfl, rfl, rfl, rfl, rfl, rfl⟩

/-! ## Directory listing -/

theorem readdir_loop_logged {β : Type} (filler : β → List Char → stat → Int → Int × β)
    (es : List dirent) (buf : β) (L0 : List FillerCall) :
    ∃ L, xmp_readdir_loop (logged filler) (buf, L0) es
          = (xmp_readdir_loop filler buf es, L0 ++ L) ∧
      L.map (fun c => (c.name, c.st, c.off))
        = (es.take L.length).map (fun de => (de.d_name, readdir_stat de, (0 : Int))) ∧
      (∀ c ∈ L.dropLast, c.ret = 0) ∧
      (L.length < es.length → ∃ c, L.getLast? = some c ∧ c.ret ≠ 0) ∧
      (es ≠ [] → L ≠ []) ∧
      ((∀ b n st o, (filler b n st o).1 = 0) → L.length = es.length) := by
  induction es generalizing buf L0 with
  | nil =>
    refine ⟨[], ?_, rfl, ?_, ?_, ?_, fun _ => rfl⟩
    · simp [xmp_readdir_loop]
    · intro c hc
      cases hc
    · intro hlt
      cases hlt
    · intro hne
      exact absurd rfl hne
  | cons de rest ih =>
    by_cases hr : (filler buf de.d_name (readdir_stat de) 0).1 ≠ 0
    · refine ⟨[⟨de.d_name, readdir_stat de, 0, (filler buf de.d_name (readdir_stat de) 0).1⟩],
        ?_, rfl, ?_, ?_, ?_, ?_⟩
      · simp only [xmp_readdir_loop, logged]
        rw [if_pos hr, if_pos hr]
      · intro c hc
        cases hc
      · intro _
        exact ⟨_, rfl, hr⟩
      · intro _ hnil
        cases hnil
      · intro hall
        exact absurd (hall _ _ _ _) hr
    · obtain ⟨L, h1, h2, h3, h4, h5, h6⟩ := ih (filler buf de.d_name (readdir_stat de) 0).2
        (L0 ++ [⟨de.d_name, readdir_stat de, 0, (filler buf de.d_name (readdir_stat de) 0).1⟩])
      have hr0 : (filler buf de.d_name (readdir_stat de) 0).1 = 0 := not_not.mp hr
      refine ⟨⟨de.d_name, readdir_stat de, 0, (filler buf de.d_name (readdir_stat de) 0).1⟩ :: L,
        ?_, ?_, ?_, ?_, ?_, ?_⟩
      · simp only [xmp_readdir_loop, logged]
        rw [if_neg hr, if_neg hr]
        simp only [logged] at h1
        rw [h1, List.append_assoc]
        rfl
      · simp only [List.map_cons, List.length_cons, List.take_succ_cons, h2]
      · intro c hc
        cases L with
        | nil => cases hc
        | cons d t =>
          rw [List.dropLast_cons₂] at hc
          rcases List.mem_cons.mp hc with hc1 | hc2
          · rw [hc1]
            exact hr0
          · exact h3 c hc2
      · intro hlt
        have hlt1 : L.length < rest.length := by
          simp only [List.length_cons] at hlt
          omega
        obtain ⟨c, hc1, hc2⟩ := h4 hlt1
        have hne : L ≠ [] := h5 (by intro hn; rw [hn] at hlt1; cases hlt1)
        cases L with
        | nil => exact absurd rfl hne
        | cons d t =>
          refine ⟨c, ?_, hc2⟩
          rw [List.getLast?_cons_cons]
          exact hc1
      · intro _ hnil
        cases hnil
      · intro hall
        simp only [List.length_cons, h6 hall]

/-- C8: for a virtual directory with translation `file_path` whose `opendir` succeeds
with a stream yielding `dp.pending`, `xmp_readdir` returns `0`; the log `L` of
callback invocations lists, in order, an initial segment of the entries, each
invocation receiving the entry name, the record with `st_ino = d_ino`,
`st_mode = d_type << 12` and every other field zero, and offset `0`; every
invocation but the last returned `0`, and when entries are left over the last
one returned non-zero; when the callback never returns non-zero the names
delivered are exactly the names of the entries, in order. -/
theorem xmp_readdir_lists_entries {σ β : Type} (h : DirHost σ) (PATH_MAX : Nat)
    (data : xmp_user_data) (path file_path : List Char) (buf : β)
    (filler : β → List Char → stat → Int → Int × β) (offset : Int) (fi : fuse_file_info)
    (s s1 : σ) (dp : DIR)
    (hp : getpath PATH_MAX data path = some file_path)
    (hopen : h.opendir s file_path = (.ok dp, s1)) :
    ∃ L : List FillerCall,
      xmp_readdir h PATH_MAX data path (buf, []) (logged filler) offset fi s
        = some (0, (xmp_readdir_loop filler buf dp.pending, L), (h.closedir s1 dp).2) ∧
      xmp_readdir h PATH_MAX data path buf filler offset fi s
        = some (0, xmp_readdir_loop filler buf dp.pending, (h.closedir s1 dp).2) ∧
      L.map (fun c => (c.name, c.st, c.off))
        = (dp.pending.take L.length).map (fun de =>
            (de.d_name,
              ({ st_dev := 0, st_ino := de.d_ino, st_nlink := 0, st_mode := de.d_type <<< 12,
                 st_uid := 0, st_gid := 0, st_rdev := 0, st_size := 0, st_blksize := 0,
                 st_blocks := 0, st_atim := ⟨0, 0⟩, st_mtim := ⟨0, 0⟩, st_ctim := ⟨0, 0⟩ } : stat),
              (0 : Int))) ∧
      (∀ c ∈ L.dropLast, c.ret = 0) ∧
      (L.length < dp.pending.length → ∃ c, L.getLast? = some c ∧ c.ret ≠ 0) ∧
      (dp.pending ≠ [] → L ≠ []) ∧
      ((∀ b n st o, (filler b n st o).1 = 0) →
        L.map (fun c => c.name) = dp.pending.map (fun de => de.d_name)) := by
  obtain ⟨L, h1, h2, h3, h4, h5, h6⟩ := readdir_loop_logged filler dp.pending buf []
  refine ⟨L, ?_, ?_, h2, h3, h4, h5, ?_⟩
  · unfold xmp_readdir
    rw [hp]
    dsimp only
    rw [hopen]
    dsimp only
    rw [h1, List.nil_append]
  · unfold xmp_readdir
    rw [hp]
    dsimp only
    rw [hopen]
  · intro hall
    have hlen := h6 hall
    have h7 := congrArg (List.map (fun x : List Char × stat × Int => x.1)) h2
    rw [List.map_map, List.map_map, hlen, List.take_length] at h7
    exact h7

theorem xmp_readdir_lists_entries_witness :
    getpath 4096 demoData "/d".toList = some "/srv/d".toList ∧
    ∃ L : List FillerCall,
      xmp_readdir hostDirs 4096 demoData "/d".toList (([] : List (List Char)), [])
          (logged collectAll) 0 (demoFi 0 0) demoHost
        = some (0, (xmp_readdir_loop collectAll [] demoEntries, L),
            (hostDirs.closedir (host_opendir demoHost "/srv/d".toList).2 ⟨3, demoEntries⟩).2) ∧
      L.map (fun c => c.name)
        = [".".toList, "..".toList, "a".toList, "b".toList, "c".toList] :=
  ⟨by decide,
    match xmp_readdir_lists_entries hostDirs 4096 demoData "/d".toList "/srv/d".toList
      ([] : List (List Char)) collectAll 0 (demoFi 0 0) demoHost
      (host_opendir demoHost "/srv/d".toList).2 ⟨3, demoEntries⟩ (by decide) rfl with
    | ⟨L, h1, _, _, _, _, _, h7⟩ => ⟨L, h1, h7 (fun _ _ _ _ => rfl)⟩⟩

/-! ## The directory handle -/

end FusePa4
